import Mathlib

/-!
Verification development for the private-equity questionnaire review engine.

Shallow embedding of the decision path (src/agent.py), the registry store
(src/helpers/keyword_manager.py) and the feedback-loop registry mutations
(src/feedback.py).

Modelling conventions:
* Python float amounts are modelled as exact rationals; every claim about
  amounts is an order or zero comparison, which rationals decide exactly.
* Python truthiness of an optional float (None, 0.0 are falsy) is modelled
  explicitly.
* A call re.search(p, text, re.IGNORECASE) for a dynamic registry pattern p
  is modelled by an oracle parameter reSearch : String -> String -> Bool.
  The keyword check, which the source builds as
  re.search(backslash-b + re.escape(kw) + backslash-b, text, re.IGNORECASE),
  is a search for the literal kw between word boundaries; wholeWordSearch
  below implements exactly that semantics over ASCII word characters.
* The Python test `not value.strip()` (whitespace-only or empty string) is
  modelled by pyStrBlank, str.lower() by pyLower (character-wise ASCII
  case folding), and the substring operator by substrSearch.
* File IO (prints, the response log write) does not influence the computed
  Decision and is not modelled; the registry file is modelled as an
  optional parsed value (none means the file is missing or unparseable).
-/

/-- The Questionnaire record (src/models.py lines 8-19). -/
structure Questionnaire where
  questionnaire_id : String
  investor_name : String
  investor_address : Option String
  investment_amount : Option Rat
  is_accredited_investor : Bool
  accreditation_details : String
  source_of_funds_description : String
  tax_id_provided : Bool
  signature_present : Bool
  submission_date : String
  investor_type : Option String
deriving DecidableEq

/-- A registry pattern entry: regular-expression text plus description
(data format of data/suspicious_keywords.json, used by src/agent.py and
src/helpers/keyword_manager.py). -/
structure PatternEntry where
  pattern : String
  description : String
deriving DecidableEq

/-- The default required-field list (src/agent.py lines 22-29). -/
def defaultRequiredFields : List String :=
  ["investor_name", "investor_address", "investment_amount",
   "is_accredited_investor", "signature_present", "tax_id_provided"]

/-- The Deps dataclass of src/agent.py lines 17-31 (the response path,
which only affects file IO, is omitted). -/
structure Deps where
  questionnaire : Questionnaire
  min_investment_amount : Rat := 0
  required_fields : List String := defaultRequiredFields
  suspicious_keywords : List String := []
  suspicious_patterns : List PatternEntry := []

/-- The emitted response document (src/models.py lines 22-26 after the
output normalisation of src/agent.py lines 214-221). -/
structure ResponseDoc where
  questionnaire_id : String
  decision : String
  missing_fields : Option (List String)
  escalation_reason : Option String
deriving DecidableEq

/-- Case folding of a string, the model of str.lower(). -/
def pyLower (s : String) : String := String.mk (s.data.map Char.toLower)

/-- The test `not value.strip()`: the string is empty or whitespace-only. -/
def pyStrBlank (s : String) : Bool := s.data.all Char.isWhitespace

/-- ASCII word character, the class matched by a word boundary. -/
def isWordChar (c : Char) : Bool := c.isAlphanum || c == '_'

/-- Whether position i of the character list holds a word character. -/
def wordAt (cs : List Char) (i : Nat) : Bool :=
  match cs.get? i with
  | some c => isWordChar c
  | none => false

/-- A regex word boundary holds at position i: the word-character status
changes between position i-1 and position i (outside the string counts as
non-word). -/
def boundaryAt (cs : List Char) (i : Nat) : Bool :=
  (if i = 0 then false else wordAt cs (i - 1)) != wordAt cs i

/-- The literal pattern pat occurs in cs starting at position i. -/
def literalMatchAt (cs pat : List Char) (i : Nat) : Bool :=
  decide ((cs.drop i).take pat.length = pat)

/-- Model of re.search of an escaped keyword between two word boundaries,
case-insensitively (src/agent.py lines 98-99): some whole-word occurrence
of the case-folded keyword in the text. -/
def wholeWordSearch (kw text : String) : Bool :=
  let cs := text.data
  let pat := (pyLower kw).data
  (List.range (cs.length + 1)).any fun i =>
    literalMatchAt cs pat i && boundaryAt cs i && boundaryAt cs (i + pat.length)

/-- Unanchored literal substring search, the model of the Python operator
testing substring membership (src/agent.py line 110). -/
def substrSearch (pat text : String) : Bool :=
  let cs := text.data
  let p := pat.data
  (List.range (cs.length + 1)).any fun i => literalMatchAt cs p i

/-- The scan text of the Text Screener: the two narrative fields joined by
a space and case-folded (src/agent.py lines 89-91). -/
def scanText (q : Questionnaire) : String :=
  pyLower (q.accreditation_details ++ " " ++ q.source_of_funds_description)

/-- Per-field deficiency test of basic_review (src/agent.py lines 65-78):
boolean flags must be true; textual fields must be present and not
whitespace-only; the investment amount must be present, nonzero (Python
truthiness) and strictly greater than the configured minimum. Field names
outside the Questionnaire record raise in the source and are outside the
model; the theorems below use the configured default list. -/
def fieldMissing (q : Questionnaire) (minAmt : Rat) (name : String) : Bool :=
  if name = "tax_id_provided" then !q.tax_id_provided
  else if name = "signature_present" then !q.signature_present
  else if name = "investor_name" then pyStrBlank q.investor_name
  else if name = "investor_address" then
    match q.investor_address with
    | none => true
    | some s => pyStrBlank s
  else if name = "investment_amount" then
    match q.investment_amount with
    | none => true
    | some x => decide (x = 0) || decide (x ≤ minAmt)
  else false

/-- The Field Validator basic_review (src/agent.py lines 57-82): collect
the deficient fields in configured order. -/
def basic_review (deps : Deps) : List String :=
  deps.required_fields.foldl
    (fun acc name =>
      if fieldMissing deps.questionnaire deps.min_investment_amount name
      then acc ++ [name] else acc) []

/-- The Text Screener ambiguity_checker (src/agent.py lines 85-115):
keywords as whole words first, then registry patterns via the regex search
oracle, then the literal phrase about not meeting accreditation. -/
def ambiguity_checker (reSearch : String → String → Bool) (deps : Deps) :
    Option String :=
  let text := scanText deps.questionnaire
  if deps.suspicious_keywords.any (fun kw => wholeWordSearch kw text) then
    some "Ambiguous source of funds"
  else if deps.suspicious_patterns.any (fun p => reSearch p.pattern text) then
    some "Ambiguous source of funds"
  else if substrSearch "does not meet" text then
    some "Investor is not accredited"
  else none

/-- The guard of decision_maker at src/agent.py lines 131-132: the amount
is falsy (absent or zero) or strictly below the configured minimum. -/
def dmAmountInvalid (a : Option Rat) (minAmt : Rat) : Bool :=
  match a with
  | none => true
  | some x => decide (x = 0) || decide (x < minAmt)

/-- The Decision Engine decision_maker (src/agent.py lines 118-147). -/
def decision_maker (reSearch : String → String → Bool) (deps : Deps) :
    String :=
  let q := deps.questionnaire
  let missing := basic_review deps
  if !missing.isEmpty then "Return"
  else if dmAmountInvalid q.investment_amount deps.min_investment_amount then
    "Return"
  else if !q.is_accredited_investor then "Escalate"
  else
    match ambiguity_checker reSearch deps with
    | some _ => "Escalate"
    | none => "Approve"

/-- The Deps value process_questionnaire builds (src/agent.py lines
155-159): registry snapshot plus default threshold and field list. -/
def processDeps (q : Questionnaire) (keywords : List String)
    (patterns : List PatternEntry) : Deps :=
  { questionnaire := q,
    suspicious_keywords := keywords,
    suspicious_patterns := patterns }

/-- process_questionnaire (src/agent.py lines 150-228), restricted to the
computation of the emitted response document: decision, missing fields
(null when empty), escalation reason (only for Escalate decisions). -/
def process_questionnaire (reSearch : String → String → Bool)
    (q : Questionnaire) (keywords : List String)
    (patterns : List PatternEntry) : ResponseDoc :=
  let deps := processDeps q keywords patterns
  let decision := decision_maker reSearch deps
  let missing_fields := basic_review deps
  let escalation_reason :=
    if decision = "Escalate" then ambiguity_checker reSearch deps else none
  { questionnaire_id := q.questionnaire_id,
    decision := decision,
    missing_fields := if missing_fields.isEmpty then none else some missing_fields,
    escalation_reason := if decision = "Escalate" then escalation_reason else none }

/-- A keyword category entry of the registry: risk level (stored under the
key named category), description, ordered example terms
(src/helpers/keyword_manager.py lines 49-55). -/
structure CategoryEntry where
  category : String
  description : String
  examples : List String
deriving DecidableEq

/-- The registry owned by KeywordManager: an insertion-ordered mapping of
category name to entry (a Python dict, modelled as an association list
looked up and updated at the first matching key) plus the pattern list
(src/helpers/keyword_manager.py lines 6-11). -/
structure Registry where
  keywords : List (String × CategoryEntry)
  patterns : List PatternEntry
deriving DecidableEq

/-- Lookup of a category name in the keyword mapping (Python dict access). -/
def assocFind (ks : List (String × CategoryEntry)) (cat : String) :
    Option CategoryEntry :=
  match ks with
  | [] => none
  | (c, e) :: rest => if c = cat then some e else assocFind rest cat

/-- Replace the entry at the first occurrence of a category name (Python
dict item assignment for an existing key). -/
def assocSet (ks : List (String × CategoryEntry)) (cat : String)
    (e : CategoryEntry) : List (String × CategoryEntry) :=
  match ks with
  | [] => []
  | (c, e0) :: rest =>
    if c = cat then (c, e) :: rest else (c, e0) :: assocSet rest cat e

/-- The entry add_keyword creates for a new category (src/helpers/
keyword_manager.py lines 50-55): risk level medium_risk, the given or a
generated description, and no examples yet. -/
def freshCategory (cat : String) (desc : Option String) : CategoryEntry :=
  { category := "medium_risk",
    description := desc.getD ("Keywords related to " ++ cat),
    examples := [] }

/-- First stage of KeywordManager.add_keyword (src/helpers/
keyword_manager.py lines 49-55): create the category with empty examples
when absent. -/
def ensureCategory (r : Registry) (cat : String) (desc : Option String) :
    List (String × CategoryEntry) :=
  if (assocFind r.keywords cat).isSome then r.keywords
  else r.keywords ++ [(cat, freshCategory cat desc)]

/-- KeywordManager.add_keyword (src/helpers/keyword_manager.py lines
46-58). Returns the new registry and whether save_keywords ran. -/
def add_keyword (r : Registry) (cat kw : String) (desc : Option String) :
    Registry × Bool :=
  match assocFind (ensureCategory r cat desc) cat with
  | some e =>
    if kw ∈ e.examples then
      ({ r with keywords := ensureCategory r cat desc }, false)
    else
      ({ r with keywords := assocSet (ensureCategory r cat desc) cat { e with examples := e.examples ++ [kw] } }, true)
  | none => ({ r with keywords := ensureCategory r cat desc }, false)

/-- KeywordManager.remove_keyword (src/helpers/keyword_manager.py lines
69-74): remove the first occurrence of the term from the category. -/
def remove_keyword (r : Registry) (cat kw : String) : Registry × Bool :=
  match assocFind r.keywords cat with
  | some e =>
    if kw ∈ e.examples then
      ({ r with keywords :=
           assocSet r.keywords cat { e with examples := e.examples.erase kw } },
       true)
    else (r, false)
  | none => (r, false)

/-- KeywordManager.add_pattern (src/helpers/keyword_manager.py lines
60-67): append unless some entry already has the same pattern text. -/
def add_pattern (r : Registry) (pat desc : String) : Registry × Bool :=
  if r.patterns.any (fun p => p.pattern = pat) then (r, false)
  else ({ r with patterns := r.patterns ++ [{ pattern := pat, description := desc }] },
        true)

/-- KeywordManager.remove_pattern (src/helpers/keyword_manager.py lines
76-79): drop every entry with that pattern text; always saves. -/
def remove_pattern (r : Registry) (pat : String) : Registry × Bool :=
  ({ r with patterns := r.patterns.filter (fun p => p.pattern ≠ pat) }, true)

/-- KeywordManager.get_all_keywords (src/helpers/keyword_manager.py lines
35-40): the flat set of example terms across all categories. -/
def get_all_keywords (r : Registry) : Finset String :=
  (r.keywords.map (fun ce => ce.2.examples)).flatten.toFinset

/-- KeywordManager.get_all_patterns (src/helpers/keyword_manager.py lines
42-44). -/
def get_all_patterns (r : Registry) : List String :=
  r.patterns.map (fun p => p.pattern)

/-- The empty registry KeywordManager substitutes on missing or corrupt
storage (src/helpers/keyword_manager.py lines 20-23). -/
def emptyRegistry : Registry := { keywords := [], patterns := [] }

/-- KeywordManager.load_keywords over the modelled store
(src/helpers/keyword_manager.py lines 13-24). The store holds the parsed
persisted registry, or none when the file is missing or unparseable.
Returns the loaded registry and the store after the call: a successful
read leaves the store alone; a failed read installs the empty registry and
persists it via save_keywords. -/
def load_keywords (store : Option Registry) : Registry × Option Registry :=
  match store with
  | some d => (d, some d)
  | none => (emptyRegistry, some emptyRegistry)

/-- A KeywordManager mutation, for stating preservation over arbitrary
operation sequences. -/
inductive RegOp where
  | addKw (cat kw : String) (desc : Option String)
  | rmKw (cat kw : String)
  | addPat (pat desc : String)
  | rmPat (pat : String)
deriving DecidableEq

/-- Apply one mutation to the registry (dropping the saved flag). -/
def applyOp (r : Registry) (op : RegOp) : Registry :=
  match op with
  | .addKw cat kw desc => (add_keyword r cat kw desc).1
  | .rmKw cat kw => (remove_keyword r cat kw).1
  | .addPat pat desc => (add_pattern r pat desc).1
  | .rmPat pat => (remove_pattern r pat).1

/-- Apply a sequence of mutations in order. -/
def applyOps (r : Registry) (ops : List RegOp) : Registry :=
  ops.foldl applyOp r

/-- The registry uniqueness invariant of the spec: pattern expression
texts are pairwise distinct, and example terms are pairwise distinct
within each category. -/
def registryInv (r : Registry) : Prop :=
  (get_all_patterns r).Nodup ∧ ∀ ce ∈ r.keywords, ce.2.examples.Nodup

instance (r : Registry) : Decidable (registryInv r) := by
  unfold registryInv; infer_instance

/-- The feedback-loop dependency state (src/feedback.py lines 14-18): a
flat keyword list and a pattern list. -/
structure FeedbackDeps where
  current_keywords : List String
  current_patterns : List PatternEntry
deriving DecidableEq

/-- The feedback-loop add_keyword tool (src/feedback.py lines 47-58):
append the keyword unless already present in the flat list. -/
def fb_add_keyword (d : FeedbackDeps) (kw : String) : FeedbackDeps :=
  if kw ∈ d.current_keywords then d
  else { d with current_keywords := d.current_keywords ++ [kw] }

/-- The feedback-loop add_pattern tool (src/feedback.py lines 61-77):
append unless the exact pair of pattern text and description is already
present. The membership test compares whole entries, not pattern texts. -/
def fb_add_pattern (d : FeedbackDeps) (pat desc : String) : FeedbackDeps :=
  let new_pattern : PatternEntry := { pattern := pat, description := desc }
  if new_pattern ∈ d.current_patterns then d
  else { d with current_patterns := d.current_patterns ++ [new_pattern] }

section HelperLemmas

/-- The accumulating loop of basic_review collects exactly the filter of
the configured field list by the deficiency test, in order. -/
theorem basic_review_eq_filter (deps : Deps) :
    basic_review deps =
      deps.required_fields.filter
        (fieldMissing deps.questionnaire deps.min_investment_amount) := by
  unfold basic_review
  generalize deps.required_fields = l
  suffices h : ∀ (l : List String) (acc : List String),
      l.foldl
        (fun acc name =>
          if fieldMissing deps.questionnaire deps.min_investment_amount name
          then acc ++ [name] else acc) acc =
      acc ++ l.filter (fieldMissing deps.questionnaire deps.min_investment_amount) by
    simpa using h l []
  intro l
  induction l with
  | nil => intro acc; simp
  | cons a l ih =>
    intro acc
    by_cases ha : fieldMissing deps.questionnaire deps.min_investment_amount a
    · simp [List.foldl_cons, ha, ih]
    · simp [List.foldl_cons, ha, ih]

theorem assocSet_of_find_eq {ks : List (String × CategoryEntry)}
    {cat : String} {e : CategoryEntry} (h : assocFind ks cat = some e) :
    assocSet ks cat e = ks := by
  induction ks with
  | nil => simp [assocFind] at h
  | cons p rest ih =>
    obtain ⟨c, e0⟩ := p
    by_cases hc : c = cat
    · subst hc
      simp [assocFind] at h
      simp [assocSet, h]
    · simp [assocFind, hc] at h
      simp [assocSet, hc, ih h]

theorem assocFind_assocSet {ks : List (String × CategoryEntry)}
    {cat : String} (h : (assocFind ks cat).isSome) (e : CategoryEntry) :
    assocFind (assocSet ks cat e) cat = some e := by
  induction ks with
  | nil => simp [assocFind] at h
  | cons p rest ih =>
    obtain ⟨c, e0⟩ := p
    by_cases hc : c = cat
    · subst hc
      simp [assocSet, assocFind]
    · simp [assocFind, hc] at h
      simp [assocSet, assocFind, hc, ih h]

theorem assocSet_assocSet (ks : List (String × CategoryEntry))
    (cat : String) (e1 e2 : CategoryEntry) :
    assocSet (assocSet ks cat e1) cat e2 = assocSet ks cat e2 := by
  induction ks with
  | nil => simp [assocSet]
  | cons p rest ih =>
    obtain ⟨c, e0⟩ := p
    by_cases hc : c = cat
    · simp [assocSet, hc]
    · simp [assocSet, hc, ih]

theorem assocFind_append_of_find_none {ks : List (String × CategoryEntry)}
    {cat : String} (h : assocFind ks cat = none)
    (l : List (String × CategoryEntry)) :
    assocFind (ks ++ l) cat = assocFind l cat := by
  induction ks with
  | nil => simp
  | cons p rest ih =>
    obtain ⟨c, e0⟩ := p
    by_cases hc : c = cat
    · simp [assocFind, hc] at h
    · simp [assocFind, hc] at h ⊢
      exact ih h

theorem assocSet_append_of_find_none {ks : List (String × CategoryEntry)}
    {cat : String} (h : assocFind ks cat = none)
    (l : List (String × CategoryEntry)) (e : CategoryEntry) :
    assocSet (ks ++ l) cat e = ks ++ assocSet l cat e := by
  induction ks with
  | nil => simp
  | cons p rest ih =>
    obtain ⟨c, e0⟩ := p
    by_cases hc : c = cat
    · simp [assocFind, hc] at h
    · simp [assocFind, hc] at h
      simp [assocSet, hc, ih h]

theorem mem_assocSet {ks : List (String × CategoryEntry)} {cat : String}
    {e : CategoryEntry} {p : String × CategoryEntry}
    (h : p ∈ assocSet ks cat e) : p ∈ ks ∨ p.2 = e := by
  induction ks with
  | nil => simp [assocSet] at h
  | cons q rest ih =>
    obtain ⟨c, e0⟩ := q
    by_cases hc : c = cat
    · simp [assocSet, hc] at h
      rcases h with h | h
      · right; rw [h]
      · left; exact List.mem_cons_of_mem _ h
    · simp [assocSet, hc] at h
      rcases h with h | h
      · left; simp [h]
      · rcases ih h with h2 | h2
        · left; exact List.mem_cons_of_mem _ h2
        · right; exact h2

theorem erase_append_singleton {l : List String} {a : String}
    (h : a ∉ l) : (l ++ [a]).erase a = l := by
  rw [List.erase_append_right _ h]
  simp

end HelperLemmas

section DecisionLemmas

/-- If the Field Validator reports deficiencies, decision_maker returns
Return before consulting the screener. -/
theorem decision_maker_of_missing (reSearch : String → String → Bool)
    (deps : Deps) (h : basic_review deps ≠ []) :
    decision_maker reSearch deps = "Return" := by
  unfold decision_maker
  cases hbr : basic_review deps with
  | nil => exact absurd hbr h
  | cons a l => simp [hbr]

/-- Shape of the emitted document when fields are missing. -/
theorem process_questionnaire_of_missing (reSearch : String → String → Bool)
    (q : Questionnaire) (kws : List String) (pats : List PatternEntry)
    (h : basic_review (processDeps q kws pats) ≠ []) :
    process_questionnaire reSearch q kws pats =
      { questionnaire_id := q.questionnaire_id,
        decision := "Return",
        missing_fields := some (basic_review (processDeps q kws pats)),
        escalation_reason := none } := by
  have hd := decision_maker_of_missing reSearch (processDeps q kws pats) h
  cases hbr : basic_review (processDeps q kws pats) with
  | nil => exact absurd hbr h
  | cons a l => simp [process_questionnaire, hd, hbr]

/-- Under passing structural checks and a false accreditation flag, the
decision is Escalate and the emitted escalation reason is whatever the
Text Screener reports. -/
theorem process_questionnaire_not_accredited (reSearch : String → String → Bool)
    (q : Questionnaire) (kws : List String) (pats : List PatternEntry)
    (h1 : basic_review (processDeps q kws pats) = [])
    (h2 : dmAmountInvalid q.investment_amount 0 = false)
    (h3 : q.is_accredited_investor = false) :
    process_questionnaire reSearch q kws pats =
      { questionnaire_id := q.questionnaire_id,
        decision := "Escalate",
        missing_fields := none,
        escalation_reason := ambiguity_checker reSearch (processDeps q kws pats) } := by
  have hd : decision_maker reSearch (processDeps q kws pats) = "Escalate" := by
    unfold decision_maker
    simp only [processDeps] at h1 h2 ⊢
    simp [h1, h2, h3]
  simp [process_questionnaire, hd, h1]

/-- Under passing structural checks and a true accreditation flag, the
document is determined by the Text Screener alone: Escalate carrying its
reason on a match, Approve otherwise, with null missing fields. -/
theorem process_questionnaire_screened (reSearch : String → String → Bool)
    (q : Questionnaire) (kws : List String) (pats : List PatternEntry)
    (h1 : basic_review (processDeps q kws pats) = [])
    (h2 : dmAmountInvalid q.investment_amount 0 = false)
    (h3 : q.is_accredited_investor = true) :
    process_questionnaire reSearch q kws pats =
      { questionnaire_id := q.questionnaire_id,
        decision :=
          match ambiguity_checker reSearch (processDeps q kws pats) with
          | some _ => "Escalate"
          | none => "Approve",
        missing_fields := none,
        escalation_reason := ambiguity_checker reSearch (processDeps q kws pats) } := by
  have hd : decision_maker reSearch (processDeps q kws pats) =
      match ambiguity_checker reSearch (processDeps q kws pats) with
      | some _ => "Escalate"
      | none => "Approve" := by
    unfold decision_maker
    simp only [processDeps] at h1 h2 ⊢
    simp [h1, h2, h3]
  cases hamb : ambiguity_checker reSearch (processDeps q kws pats) with
  | none => simp [process_questionnaire, hd, hamb, h1]
  | some reason => simp [process_questionnaire, hd, hamb, h1]

end DecisionLemmas

/-- basic_review at the dependencies process_questionnaire builds: the
default field list filtered by deficiency at the default minimum. -/
theorem basic_review_processDeps (q : Questionnaire) (kws : List String)
    (pats : List PatternEntry) :
    basic_review (processDeps q kws pats) =
      defaultRequiredFields.filter (fieldMissing q 0) := by
  rw [basic_review_eq_filter]; rfl

/-- The emitted missing_fields entry is null exactly when the Field
Validator reports nothing. -/
theorem process_missing_none_iff (rs : String → String → Bool)
    (q : Questionnaire) (kws : List String) (pats : List PatternEntry) :
    (process_questionnaire rs q kws pats).missing_fields = none ↔
      basic_review (processDeps q kws pats) = [] := by
  cases hbr : basic_review (processDeps q kws pats) with
  | nil => simp [process_questionnaire, hbr]
  | cons a l => simp [process_questionnaire, hbr]

/-- A non-null emitted escalation reason forces an Escalate decision. -/
theorem process_escalation_only_escalate (rs : String → String → Bool)
    (q : Questionnaire) (kws : List String) (pats : List PatternEntry)
    (h : (process_questionnaire rs q kws pats).escalation_reason ≠ none) :
    (process_questionnaire rs q kws pats).decision = "Escalate" := by
  by_cases hd : decision_maker rs (processDeps q kws pats) = "Escalate"
  · simp [process_questionnaire, hd]
  · exfalso; apply h; simp [process_questionnaire, hd]

/-- Claim C1: a questionnaire with a missing or invalid required field is
classified Return; the emitted missing-field list is non-empty and is
exactly the deficient field names in the configured required-field order;
no escalation reason is emitted; and the whole document is independent of
the registry snapshot and of the regex oracle, so the Text Screener never
influences it and an incomplete questionnaire is never escalated for
suspicious wording. -/
theorem C1_return_on_missing_fields (reSearch : String → String → Bool)
    (q : Questionnaire) (kws : List String) (pats : List PatternEntry)
    (h : basic_review (processDeps q kws pats) ≠ []) :
    (process_questionnaire reSearch q kws pats).decision = "Return" ∧
    (process_questionnaire reSearch q kws pats).missing_fields =
      some (defaultRequiredFields.filter (fieldMissing q 0)) ∧
    defaultRequiredFields.filter (fieldMissing q 0) ≠ [] ∧
    (process_questionnaire reSearch q kws pats).escalation_reason = none ∧
    ∀ (reSearch2 : String → String → Bool) (kws2 : List String)
      (pats2 : List PatternEntry),
      process_questionnaire reSearch q kws pats =
        process_questionnaire reSearch2 q kws2 pats2 := by
  have hbr := basic_review_processDeps q kws pats
  have hne : defaultRequiredFields.filter (fieldMissing q 0) ≠ [] := hbr ▸ h
  rw [process_questionnaire_of_missing reSearch q kws pats h]
  refine ⟨rfl, by rw [hbr], hne, rfl, ?_⟩
  intro rs2 kws2 pats2
  rw [process_questionnaire_of_missing rs2 q kws2 pats2
      (by rw [basic_review_processDeps]; exact hne)]
  rw [hbr, basic_review_processDeps]

/-- Claim C4: with the configured required-field list, a questionnaire
whose investment amount is absent or not strictly greater than the
configured minimum is classified Return. -/
theorem C4_return_on_insufficient_amount (reSearch : String → String → Bool)
    (deps : Deps) (hreq : deps.required_fields = defaultRequiredFields)
    (hamt : deps.questionnaire.investment_amount = none ∨
      ∃ a, deps.questionnaire.investment_amount = some a ∧
        a ≤ deps.min_investment_amount) :
    decision_maker reSearch deps = "Return" := by
  have hf : fieldMissing deps.questionnaire deps.min_investment_amount
      "investment_amount" = true := by
    rcases hamt with h | ⟨a, ha, hle⟩
    · simp [fieldMissing, h]
    · simp [fieldMissing, ha, hle]
  have hmem : "investment_amount" ∈ basic_review deps := by
    rw [basic_review_eq_filter, hreq]
    exact List.mem_filter.2 ⟨by simp [defaultRequiredFields], hf⟩
  exact decision_maker_of_missing reSearch deps (List.ne_nil_of_mem hmem)

/-- Claim C10: a zero investment amount is classified Return for every
configuration, including zero or negative minimums: the engine treats a
zero amount like an absent one. -/
theorem C10_zero_amount_returns (reSearch : String → String → Bool)
    (deps : Deps)
    (h : deps.questionnaire.investment_amount = some 0 ∨
         deps.questionnaire.investment_amount = none) :
    decision_maker reSearch deps = "Return" := by
  have hd : dmAmountInvalid deps.questionnaire.investment_amount
      deps.min_investment_amount = true := by
    rcases h with h | h <;> simp [dmAmountInvalid, h]
  unfold decision_maker
  cases hbr : (basic_review deps).isEmpty <;> simp [hbr, hd]

/-- Claim C6: the Decision Engine is deterministic: identical
questionnaire, registry snapshot and regex oracle yield identical emitted
documents and identical classifications. -/
theorem C6_decision_engine_deterministic (rs1 rs2 : String → String → Bool)
    (q1 q2 : Questionnaire) (kws1 kws2 : List String)
    (pats1 pats2 : List PatternEntry)
    (hrs : rs1 = rs2) (hq : q1 = q2) (hk : kws1 = kws2) (hp : pats1 = pats2) :
    process_questionnaire rs1 q1 kws1 pats1 =
      process_questionnaire rs2 q2 kws2 pats2 ∧
    decision_maker rs1 (processDeps q1 kws1 pats1) =
      decision_maker rs2 (processDeps q2 kws2 pats2) := by
  subst hrs; subst hq; subst hk; subst hp
  exact ⟨rfl, rfl⟩

/-- Claim C2: for a structurally sound, accredited questionnaire, the
final classification is Escalate with reason about an ambiguous source of
funds exactly when some registry keyword matches the case-folded scan text
as a whole word (so a keyword occurring only inside a longer word cannot
trigger it) or some registry pattern matches under the regex search
oracle; and only when neither of those fires does the literal phrase about
not meeting requirements yield Escalate with the non-accreditation
reason. -/
theorem C2_textual_escalation_characterised (reSearch : String → String → Bool)
    (q : Questionnaire) (kws : List String) (pats : List PatternEntry)
    (h1 : basic_review (processDeps q kws pats) = [])
    (h2 : dmAmountInvalid q.investment_amount 0 = false)
    (h3 : q.is_accredited_investor = true) :
    (((process_questionnaire reSearch q kws pats).decision = "Escalate" ∧
      (process_questionnaire reSearch q kws pats).escalation_reason =
        some "Ambiguous source of funds") ↔
      (kws.any (fun kw => wholeWordSearch kw (scanText q)) = true ∨
       pats.any (fun p => reSearch p.pattern (scanText q)) = true)) ∧
    (kws.any (fun kw => wholeWordSearch kw (scanText q)) = false →
     pats.any (fun p => reSearch p.pattern (scanText q)) = false →
     (((process_questionnaire reSearch q kws pats).decision = "Escalate" ∧
       (process_questionnaire reSearch q kws pats).escalation_reason =
         some "Investor is not accredited") ↔
       substrSearch "does not meet" (scanText q) = true)) := by
  rw [process_questionnaire_screened reSearch q kws pats h1 h2 h3]
  unfold ambiguity_checker
  simp only [processDeps]
  by_cases hb1 : kws.any (fun kw => wholeWordSearch kw (scanText q)) = true
  · simp [hb1]
  · simp only [Bool.not_eq_true] at hb1
    by_cases hb2 : pats.any (fun p => reSearch p.pattern (scanText q)) = true
    · simp [hb1, hb2]
    · simp only [Bool.not_eq_true] at hb2
      by_cases hb3 : substrSearch "does not meet" (scanText q) = true
      · simp [hb1, hb2, hb3]
      · simp only [Bool.not_eq_true] at hb3
        simp [hb1, hb2, hb3]

/-- Claim C3 as amended: for a structurally sound questionnaire of a
non-accredited investor the classification is Escalate, and the emitted
escalation-reason entry equals the Text Screener result: null only when
the narrative matches nothing, and the textual reason when the narrative
also contains suspicious wording. -/
theorem C3_not_accredited_escalates (reSearch : String → String → Bool)
    (q : Questionnaire) (kws : List String) (pats : List PatternEntry)
    (h1 : basic_review (processDeps q kws pats) = [])
    (h2 : dmAmountInvalid q.investment_amount 0 = false)
    (h3 : q.is_accredited_investor = false) :
    (process_questionnaire reSearch q kws pats).decision = "Escalate" ∧
    (process_questionnaire reSearch q kws pats).escalation_reason =
      ambiguity_checker reSearch (processDeps q kws pats) := by
  rw [process_questionnaire_not_accredited reSearch q kws pats h1 h2 h3]
  exact ⟨rfl, rfl⟩

/-- Claim C5: a structurally sound, accredited questionnaire whose
narrative passes the Text Screener is classified Approve with null missing
fields and null escalation reason; and in every emitted document
missing_fields is null exactly when the missing-field list is empty while
a non-null escalation reason occurs only on Escalate decisions. -/
theorem C5_approve_on_clean (reSearch : String → String → Bool)
    (q : Questionnaire) (kws : List String) (pats : List PatternEntry)
    (h1 : basic_review (processDeps q kws pats) = [])
    (h2 : dmAmountInvalid q.investment_amount 0 = false)
    (h3 : q.is_accredited_investor = true)
    (h4 : ambiguity_checker reSearch (processDeps q kws pats) = none) :
    (process_questionnaire reSearch q kws pats).decision = "Approve" ∧
    (process_questionnaire reSearch q kws pats).missing_fields = none ∧
    (process_questionnaire reSearch q kws pats).escalation_reason = none ∧
    ∀ (rs2 : String → String → Bool) (q2 : Questionnaire)
      (kws2 : List String) (pats2 : List PatternEntry),
      ((process_questionnaire rs2 q2 kws2 pats2).missing_fields = none ↔
        basic_review (processDeps q2 kws2 pats2) = []) ∧
      ((process_questionnaire rs2 q2 kws2 pats2).escalation_reason ≠ none →
        (process_questionnaire rs2 q2 kws2 pats2).decision = "Escalate") := by
  rw [process_questionnaire_screened reSearch q kws pats h1 h2 h3]
  refine ⟨by simp [h4], rfl, by simp [h4], ?_⟩
  intro rs2 q2 kws2 pats2
  exact ⟨process_missing_none_iff rs2 q2 kws2 pats2,
    process_escalation_only_escalate rs2 q2 kws2 pats2⟩

section RegistryLemmas

theorem assocFind_mem {ks : List (String × CategoryEntry)} {cat : String}
    {e : CategoryEntry} (h : assocFind ks cat = some e) : (cat, e) ∈ ks := by
  induction ks with
  | nil => simp [assocFind] at h
  | cons p rest ih =>
    obtain ⟨c, e0⟩ := p
    by_cases hc : c = cat
    · subst hc
      simp [assocFind] at h
      simp [h]
    · simp [assocFind, hc] at h
      exact List.mem_cons_of_mem _ (ih h)

/-- add_keyword preserves the uniqueness invariant. -/
theorem registryInv_add_keyword {r : Registry} (cat kw : String)
    (desc : Option String) (hr : registryInv r) :
    registryInv (add_keyword r cat kw desc).1 := by
  obtain ⟨hp, hk⟩ := hr
  unfold add_keyword
  have hksInv : ∀ ce ∈ ensureCategory r cat desc, ce.2.examples.Nodup := by
    intro ce hce
    unfold ensureCategory at hce
    by_cases hf : (assocFind r.keywords cat).isSome
    · rw [if_pos hf] at hce
      exact hk ce hce
    · rw [if_neg hf] at hce
      rcases List.mem_append.1 hce with hce | hce
      · exact hk ce hce
      · simp at hce
        simp [hce, freshCategory]
  cases hfind : assocFind (ensureCategory r cat desc) cat with
  | none => exact ⟨hp, hksInv⟩
  | some e =>
    by_cases hkw : kw ∈ e.examples
    · simp only [hkw, if_pos]
      exact ⟨hp, hksInv⟩
    · simp only [hkw, if_neg, not_false_iff]
      refine ⟨hp, ?_⟩
      intro ce hce
      rcases mem_assocSet hce with hce2 | hce2
      · exact hksInv ce hce2
      · rw [hce2]
        have he : e.examples.Nodup := hksInv (cat, e) (assocFind_mem hfind)
        simp only []
        rw [List.nodup_append]
        exact ⟨he, List.nodup_singleton kw, by simpa using hkw⟩

/-- remove_keyword preserves the uniqueness invariant. -/
theorem registryInv_remove_keyword {r : Registry} (cat kw : String)
    (hr : registryInv r) : registryInv (remove_keyword r cat kw).1 := by
  obtain ⟨hp, hk⟩ := hr
  unfold remove_keyword
  cases hfind : assocFind r.keywords cat with
  | none => exact ⟨hp, hk⟩
  | some e =>
    by_cases hkw : kw ∈ e.examples
    · simp only [hkw, if_pos]
      refine ⟨hp, ?_⟩
      intro ce hce
      rcases mem_assocSet hce with hce2 | hce2
      · exact hk ce hce2
      · rw [hce2]
        have he : e.examples.Nodup := hk (cat, e) (assocFind_mem hfind)
        exact (e.examples.erase_sublist kw).nodup he
    · simp only [hkw, if_neg, not_false_iff]
      exact ⟨hp, hk⟩

/-- add_pattern preserves the uniqueness invariant. -/
theorem registryInv_add_pattern {r : Registry} (pat desc : String)
    (hr : registryInv r) : registryInv (add_pattern r pat desc).1 := by
  obtain ⟨hp, hk⟩ := hr
  unfold add_pattern
  by_cases hmem : r.patterns.any (fun p => p.pattern = pat)
  · simp only [hmem, if_pos]
    exact ⟨hp, hk⟩
  · simp only [hmem, if_neg, not_false_iff]
    refine ⟨?_, hk⟩
    unfold get_all_patterns at hp ⊢
    show ((r.patterns ++ [({ pattern := pat, description := desc } : PatternEntry)]).map
      (fun p => p.pattern)).Nodup
    simp only [List.map_append, List.map_cons, List.map_nil]
    rw [List.nodup_append]
    refine ⟨hp, List.nodup_singleton pat, ?_⟩
    intro x hx hx2
    simp at hx2
    subst hx2
    rcases List.mem_map.1 hx with ⟨p, hpmem, hpe⟩
    apply hmem
    rw [List.any_eq_true]
    exact ⟨p, hpmem, by simp [hpe]⟩

/-- remove_pattern preserves the uniqueness invariant. -/
theorem registryInv_remove_pattern {r : Registry} (pat : String)
    (hr : registryInv r) : registryInv (remove_pattern r pat).1 := by
  obtain ⟨hp, hk⟩ := hr
  refine ⟨?_, hk⟩
  unfold get_all_patterns at hp ⊢
  unfold remove_pattern
  exact ((r.patterns.filter_sublist).map (fun p => p.pattern)).nodup hp

end RegistryLemmas

/-- Claim C8: loading from missing or corrupt storage yields the empty
registry (no keyword categories, no patterns), persists that empty state
immediately, never fails (load_keywords is a total function), and a
subsequent load of the persisted store reads back exactly the registry
that was loaded. -/
theorem C8_load_recovers_empty :
    (load_keywords none).1 = emptyRegistry ∧
    (load_keywords none).2 = some emptyRegistry ∧
    registryInv emptyRegistry ∧
    ∀ store : Option Registry,
      (load_keywords (load_keywords store).2).1 = (load_keywords store).1 ∧
      ((load_keywords store).2).isSome := by
  refine ⟨rfl, rfl, by decide, ?_⟩
  intro store
  cases store <;> exact ⟨rfl, rfl⟩

/-- Claim C7 as amended: the uniqueness invariant is preserved by every
KeywordManager mutation path (arbitrary sequences of add and remove
operations) and by the feedback-loop add_keyword on its flat list; the
feedback-loop add_pattern guarantees only that whole entries stay
pairwise distinct, because its membership test compares the pair of
pattern text and description, so it can introduce two entries with
identical pattern text under different descriptions. -/
theorem C7_uniqueness_preservation :
    (∀ (r : Registry) (ops : List RegOp),
      registryInv r → registryInv (applyOps r ops)) ∧
    (∀ (d : FeedbackDeps) (kw : String),
      d.current_keywords.Nodup → (fb_add_keyword d kw).current_keywords.Nodup) ∧
    (∀ (d : FeedbackDeps) (pat desc : String),
      d.current_patterns.Nodup →
        (fb_add_pattern d pat desc).current_patterns.Nodup) := by
  refine ⟨?_, ?_, ?_⟩
  · intro r ops
    induction ops generalizing r with
    | nil => intro h; exact h
    | cons op rest ih =>
      intro h
      have h1 : registryInv (applyOp r op) := by
        cases op with
        | addKw cat kw desc => exact registryInv_add_keyword cat kw desc h
        | rmKw cat kw => exact registryInv_remove_keyword cat kw h
        | addPat pat desc => exact registryInv_add_pattern pat desc h
        | rmPat pat => exact registryInv_remove_pattern pat h
      exact ih (applyOp r op) h1
  · intro d kw h
    unfold fb_add_keyword
    by_cases hmem : kw ∈ d.current_keywords
    · simp only [hmem, if_pos]
      exact h
    · simp only [hmem, if_neg, not_false_iff]
      rw [List.nodup_append]
      exact ⟨h, List.nodup_singleton kw, by simpa using hmem⟩
  · intro d pat desc h
    unfold fb_add_pattern
    by_cases hmem :
        ({ pattern := pat, description := desc } : PatternEntry) ∈
          d.current_patterns
    · simp only [hmem, if_pos]
      exact h
    · simp only [hmem, if_neg, not_false_iff]
      rw [List.nodup_append]
      exact ⟨h, List.nodup_singleton _, by simpa using hmem⟩

/-- Claim C7 counterexample: starting from a feedback state whose single
pattern entry makes pattern texts pairwise distinct, one feedback-loop
add_pattern call with the same pattern text but a different description
produces two entries with identical expression text. -/
theorem C7_counterexample :
    ((FeedbackDeps.mk []
        [{ pattern := "pending", description := "first" }]).current_patterns.map
          (fun p => p.pattern)).Nodup ∧
    ¬ (((fb_add_pattern
          (FeedbackDeps.mk [] [{ pattern := "pending", description := "first" }])
          "pending" "second").current_patterns.map
            (fun p => p.pattern)).Nodup) := by
  constructor
  · decide
  · decide

/-- Claim C9 as amended: adding a keyword already present in its category
or a pattern whose expression text is already registered leaves the
registry unchanged and triggers no save; and addKeyword of a term that is
not already present in the target category followed by removeKeyword of
that term restores the flat keyword set exactly. (Without the freshness
condition the round trip can delete a pre-existing term.) -/
theorem C9_add_idempotent_and_round_trip :
    (∀ (r : Registry) (cat kw : String) (desc : Option String)
        (e : CategoryEntry),
      assocFind r.keywords cat = some e → kw ∈ e.examples →
        add_keyword r cat kw desc = (r, false)) ∧
    (∀ (r : Registry) (pat desc : String),
      r.patterns.any (fun p => p.pattern = pat) = true →
        add_pattern r pat desc = (r, false)) ∧
    (∀ (r : Registry) (cat kw : String) (desc : Option String),
      (∀ e, assocFind r.keywords cat = some e → kw ∉ e.examples) →
        get_all_keywords
            (remove_keyword (add_keyword r cat kw desc).1 cat kw).1 =
          get_all_keywords r) := by
  refine ⟨?_, ?_, ?_⟩
  · intro r cat kw desc e hfind hkw
    have hens : ensureCategory r cat desc = r.keywords := by
      unfold ensureCategory
      rw [if_pos (by rw [hfind]; rfl)]
    unfold add_keyword
    rw [hens, hfind]
    simp [hkw]
  · intro r pat desc h
    unfold add_pattern
    simp [h]
  · intro r cat kw desc hnot
    cases hfind : assocFind r.keywords cat with
    | some e =>
      obtain ⟨ecat, edesc, eex⟩ := e
      have hkw : kw ∉ eex := hnot _ hfind
      have hens : ensureCategory r cat desc = r.keywords := by
        unfold ensureCategory
        rw [if_pos (by rw [hfind]; rfl)]
      have hadd : (add_keyword r cat kw desc).1 =
          { r with keywords := assocSet r.keywords cat (CategoryEntry.mk ecat edesc (eex ++ [kw])) } := by
        unfold add_keyword
        rw [hens, hfind]
        simp [hkw]
      have hfind2 : assocFind (assocSet r.keywords cat (CategoryEntry.mk ecat edesc (eex ++ [kw]))) cat =
          some (CategoryEntry.mk ecat edesc (eex ++ [kw])) :=
        assocFind_assocSet (by rw [hfind]; rfl) _
      rw [hadd]
      unfold remove_keyword
      simp only [hfind2]
      simp only [List.mem_append, List.mem_singleton, or_true, if_true]
      rw [erase_append_singleton hkw, assocSet_assocSet,
        assocSet_of_find_eq hfind]
    | none =>
      have hens : ensureCategory r cat desc =
          r.keywords ++ [(cat, freshCategory cat desc)] := by
        unfold ensureCategory
        rw [if_neg (by rw [hfind]; simp)]
      have hfind1 : assocFind (r.keywords ++ [(cat, freshCategory cat desc)]) cat =
          some (freshCategory cat desc) := by
        rw [assocFind_append_of_find_none hfind]
        simp [assocFind]
      have hadd : (add_keyword r cat kw desc).1 =
          { r with keywords := r.keywords ++ [(cat, CategoryEntry.mk "medium_risk" (desc.getD ("Keywords related to " ++ cat)) [kw])] } := by
        unfold add_keyword
        rw [hens, hfind1]
        simp only [freshCategory, List.not_mem_nil, if_neg, not_false_iff]
        rw [assocSet_append_of_find_none hfind]
        simp [assocSet]
      have hfind2 : assocFind (r.keywords ++ [(cat, CategoryEntry.mk "medium_risk" (desc.getD ("Keywords related to " ++ cat)) [kw])]) cat =
          some (CategoryEntry.mk "medium_risk" (desc.getD ("Keywords related to " ++ cat)) [kw]) := by
        rw [assocFind_append_of_find_none hfind]
        simp [assocFind]
      rw [hadd]
      unfold remove_keyword
      simp only [hfind2]
      simp only [List.mem_singleton, if_true]
      rw [assocSet_append_of_find_none hfind]
      unfold get_all_keywords
      simp [assocSet]

/-- Claim C9 counterexample: on a registry whose category already holds
the term, addKeyword is a no-op but removeKeyword then deletes the
pre-existing term, so the add-then-remove round trip does not restore the
flat keyword set. -/
theorem C9_counterexample :
    get_all_keywords
        (remove_keyword
          (add_keyword
            (Registry.mk
              [("funds", CategoryEntry.mk "medium_risk" "d" ["x"])] [])
            "funds" "x" none).1
          "funds" "x").1 ≠
      get_all_keywords
        (Registry.mk [("funds", CategoryEntry.mk "medium_risk" "d" ["x"])] []) := by
  decide

/-- A complete, accredited questionnaire with clean narrative text. -/
def qClean : Questionnaire :=
  { questionnaire_id := "Q-001",
    investor_name := "Alice Smith",
    investor_address := some "1 Main Street",
    investment_amount := some 250000,
    is_accredited_investor := true,
    accreditation_details := "income above threshold",
    source_of_funds_description := "salary and savings",
    tax_id_provided := true,
    signature_present := true,
    submission_date := "2024-01-01",
    investor_type := some "individual" }

/-- qClean without the tax identifier flag. -/
def qMissingTax : Questionnaire := { qClean with tax_id_provided := false }

/-- qClean with narrative text matching the registered pattern. -/
def qPending : Questionnaire :=
  { qClean with accreditation_details := "status pending review" }

/-- qClean from a non-accredited investor with suspicious narrative. -/
def qNotAcc : Questionnaire :=
  { qClean with is_accredited_investor := false,
                source_of_funds_description := "gambling winnings" }

/-- A registry pattern list holding the pending pattern. -/
def patsPending : List PatternEntry :=
  [{ pattern := "pending", description := "Pending status" }]

/-- Engine dependencies with a zero amount under the default minimum. -/
def depsZero : Deps :=
  { questionnaire := { qClean with investment_amount := some 0 } }

/-- Engine dependencies with a zero amount under a negative minimum. -/
def depsNegMin : Deps :=
  { questionnaire := { qClean with investment_amount := some 0 },
    min_investment_amount := -5 }

/-- A registry with one category and one pattern. -/
def regW : Registry :=
  Registry.mk [("funds", CategoryEntry.mk "medium_risk" "d" ["x"])]
    [PatternEntry.mk "p1" "d1"]

/-- A mutation sequence touching keywords and patterns. -/
def opsW : List RegOp :=
  [RegOp.addPat "p2" "d2", RegOp.addKw "funds" "y" none,
   RegOp.rmKw "funds" "x", RegOp.rmPat "p1", RegOp.addKw "fresh" "z" none]

/-- A feedback-loop state with one keyword and one pattern. -/
def fbW : FeedbackDeps :=
  FeedbackDeps.mk ["alpha"] [PatternEntry.mk "p1" "d1"]

theorem C1_witness :
    basic_review (processDeps qMissingTax [] []) ≠ [] ∧
    (process_questionnaire substrSearch qMissingTax [] []).decision = "Return" ∧
    (process_questionnaire substrSearch qMissingTax [] []).missing_fields =
      some ["tax_id_provided"] ∧
    (process_questionnaire substrSearch qMissingTax [] []).escalation_reason =
      none := by
  have h := C1_return_on_missing_fields substrSearch qMissingTax [] [] (by decide)
  refine ⟨by decide, h.1, ?_, h.2.2.2.1⟩
  rw [h.2.1]
  decide

theorem C2_witness :
    basic_review (processDeps qPending [] patsPending) = [] ∧
    dmAmountInvalid qPending.investment_amount 0 = false ∧
    qPending.is_accredited_investor = true ∧
    ((process_questionnaire substrSearch qPending [] patsPending).decision =
        "Escalate" ∧
     (process_questionnaire substrSearch qPending [] patsPending).escalation_reason =
        some "Ambiguous source of funds") := by
  refine ⟨by decide, by decide, rfl, ?_⟩
  have h := (C2_textual_escalation_characterised substrSearch qPending []
    patsPending (by decide) (by decide) rfl).1
  exact h.mpr (Or.inr (by decide))

theorem C3_witness :
    basic_review (processDeps qNotAcc ["gambling"] []) = [] ∧
    dmAmountInvalid qNotAcc.investment_amount 0 = false ∧
    qNotAcc.is_accredited_investor = false ∧
    ((process_questionnaire substrSearch qNotAcc ["gambling"] []).decision =
        "Escalate" ∧
     (process_questionnaire substrSearch qNotAcc ["gambling"] []).escalation_reason =
        ambiguity_checker substrSearch (processDeps qNotAcc ["gambling"] [])) := by
  refine ⟨by decide, by decide, rfl, ?_⟩
  exact C3_not_accredited_escalates substrSearch qNotAcc ["gambling"] []
    (by decide) (by decide) rfl

/-- Claim C3 counterexample: a structurally sound questionnaire of a
non-accredited investor whose narrative also contains a registered
keyword is escalated with the textual reason attached, not with an empty
escalation-reason entry as the claim states. -/
theorem C3_counterexample :
    (process_questionnaire substrSearch qNotAcc ["gambling"] []).decision =
      "Escalate" ∧
    (process_questionnaire substrSearch qNotAcc ["gambling"] []).escalation_reason =
      some "Ambiguous source of funds" := by
  constructor
  · decide
  · decide

theorem C4_witness :
    depsZero.required_fields = defaultRequiredFields ∧
    depsZero.questionnaire.investment_amount = some 0 ∧
    depsZero.min_investment_amount = 0 ∧
    decision_maker substrSearch depsZero = "Return" := by
  refine ⟨rfl, rfl, rfl, ?_⟩
  exact C4_return_on_insufficient_amount substrSearch depsZero rfl
    (Or.inr ⟨0, rfl, le_refl 0⟩)

theorem C5_witness :
    basic_review (processDeps qClean ["tbd"] []) = [] ∧
    ambiguity_checker substrSearch (processDeps qClean ["tbd"] []) = none ∧
    (process_questionnaire substrSearch qClean ["tbd"] []).decision = "Approve" ∧
    (process_questionnaire substrSearch qClean ["tbd"] []).missing_fields = none ∧
    (process_questionnaire substrSearch qClean ["tbd"] []).escalation_reason =
      none := by
  have h := C5_approve_on_clean substrSearch qClean ["tbd"] [] (by decide)
    (by decide) rfl (by decide)
  exact ⟨by decide, by decide, h.1, h.2.1, h.2.2.1⟩

theorem C6_witness :
    process_questionnaire substrSearch qClean [] [] =
      process_questionnaire substrSearch qClean [] [] ∧
    decision_maker substrSearch (processDeps qClean [] []) =
      decision_maker substrSearch (processDeps qClean [] []) :=
  C6_decision_engine_deterministic substrSearch substrSearch qClean qClean
    [] [] [] [] rfl rfl rfl rfl

theorem C7_witness :
    registryInv regW ∧ registryInv (applyOps regW opsW) ∧
    (fb_add_keyword fbW "beta").current_keywords.Nodup ∧
    (fb_add_pattern fbW "p9" "d9").current_patterns.Nodup :=
  ⟨by decide,
   C7_uniqueness_preservation.1 regW opsW (by decide),
   C7_uniqueness_preservation.2.1 fbW "beta" (by decide),
   C7_uniqueness_preservation.2.2 fbW "p9" "d9" (by decide)⟩

theorem C9_witness :
    add_keyword regW "funds" "x" none = (regW, false) ∧
    add_pattern regW "p1" "other" = (regW, false) ∧
    get_all_keywords
        (remove_keyword (add_keyword regW "funds" "y" none).1 "funds" "y").1 =
      get_all_keywords regW := by
  refine ⟨?_, ?_, ?_⟩
  · exact C9_add_idempotent_and_round_trip.1 regW "funds" "x" none
      (CategoryEntry.mk "medium_risk" "d" ["x"]) rfl (by decide)
  · exact C9_add_idempotent_and_round_trip.2.1 regW "p1" "other" (by decide)
  · refine C9_add_idempotent_and_round_trip.2.2 regW "funds" "y" none ?_
    intro e he
    have h2 : CategoryEntry.mk "medium_risk" "d" ["x"] = e := Option.some.inj he
    rw [← h2]
    decide

theorem C10_witness :
    depsNegMin.questionnaire.investment_amount = some 0 ∧
    depsNegMin.min_investment_amount < 0 ∧
    decision_maker substrSearch depsNegMin = "Return" := by
  exact ⟨rfl, by decide,
    C10_zero_amount_returns substrSearch depsNegMin (Or.inl rfl)⟩
